import Mathlib

/-!
Verification development for the runtime core of the Koto scripting language:
the value representation (`src/runtime/src/value.rs`), the constant pool
(`src/parser/src/constant_pool.rs`), and the script-execution driver
(`src/koto/src/lib.rs`).

Modelling conventions:
* IEEE-754 doubles appear in the runtime value model as `F64`: either NaN or an
  exact numeric value (a rational).  The source code only uses equality,
  `partial_cmp` and `is_nan` on them, so this captures the relevant behaviour
  (`==` is false whenever NaN is involved, `partial_cmp` is `None` whenever NaN
  is involved).  The infinities are ordinary non-NaN points of the order and
  are not distinguished.
* `Rc<RefCell<...>>` cells of the value model are represented by addresses into
  an explicit heap (`Heap`), so that aliasing and mutation can be stated.
  Recursive traversals of the heap (equality, deep reads) take a fuel
  parameter because heap graphs may be cyclic; the original Rust code simply
  diverges on cyclic graphs, and every theorem below supplies enough fuel.
* `panic!` in the source is modelled by an explicit result constructor
  (`panicUnsupported`), distinct from every ordinary return value.
-/

namespace KotoSpec

/-- An IEEE-754 double, reduced to what `value.rs` observes about it:
it is NaN, or it is an ordered numeric value (modelled as a rational). -/
inductive F64 where
  | nan
  | num (q : ℚ)
deriving DecidableEq

/-- Model of Rust `f64::is_nan`. -/
def F64.isNan : F64 → Bool
  | .nan => true
  | .num _ => false

/-- Model of Rust `f64 == f64`: false whenever NaN is involved. -/
def F64.beq : F64 → F64 → Bool
  | .num a, .num b => a == b
  | _, _ => false

/-- Model of Rust `f64::partial_cmp`: `None` whenever NaN is involved. -/
def F64.pcmp : F64 → F64 → Option Ordering
  | .num a, .num b => some (compare a b)
  | _, _ => none

namespace Runtime

/-- Heap address standing for an `Rc<RefCell<...>>` allocation. -/
abbrev Addr := Nat

/-- The `Value` enum of `src/runtime/src/value.rs`.

`List`, `Map` and `Share` hold `Rc<RefCell<...>>` cells, modelled as heap
addresses.  `Function`, `BuiltinFunction`, `BuiltinValue`, `For` and `While`
hold `Rc` allocations whose contents the claims never inspect; they are
modelled by an allocation identity (`Rc::ptr_eq` becomes identity equality).
`Str` holds an `Rc<String>`; string contents are all the code observes. -/
inductive Value where
  | empty
  | bool (b : Bool)
  | number (n : F64)
  | vec4 (x1 x2 x3 x4 : F64)
  | range (start stop : Int)
  | indexRange (start : Nat) (stop : Option Nat)
  | list (a : Addr)
  | map (a : Addr)
  | str (s : String)
  | share (a : Addr)
  | function (id : Nat)
  | builtinFunction (id : Nat) (isInstanceFunction : Bool)
  | builtinValue (id : Nat)
  | forLoop (id : Nat)
  | whileLoop (id : Nat)
deriving DecidableEq

/-- Contents of one `Rc<RefCell<...>>` allocation.

The types `ValueList` and `ValueMap` live in `value_list.rs` / `value_map.rs`,
which are not part of the provided sources.  Modelled from the spec: a List is
an ordered sequence of values and a Map an ordered collection of entries keyed
by strings; equality of both is structural, element-wise / entry-wise. -/
inductive Cell where
  | listCell (elems : List Value)
  | mapCell (entries : List (String × Value))
  | shareCell (v : Value)
deriving DecidableEq

/-- A heap: the addressable `Rc<RefCell<...>>` allocations. -/
abbrev Heap := List Cell

/-- Reading the allocation at an address. -/
def heapGet (h : Heap) (a : Addr) : Option Cell := h.get? a

/-- Overwriting the allocation at an address (in-place mutation through a
handle). -/
def setCell (h : Heap) (a : Addr) (c : Cell) : Heap := h.set a c

/-- Element-wise equality of two `Vec<Value>`s, given an equality on values
(`ValueList`'s derived `PartialEq`). -/
def listEqWith (eqv : Value → Value → Bool) : List Value → List Value → Bool
  | [], [] => true
  | x :: xs, y :: ys => eqv x y && listEqWith eqv xs ys
  | _, _ => false

/-- Entry-wise equality of two maps, given an equality on values
(`ValueMap`'s derived `PartialEq`). -/
def mapEqWith (eqv : Value → Value → Bool) :
    List (String × Value) → List (String × Value) → Bool
  | [], [] => true
  | (k1, v1) :: r1, (k2, v2) :: r2 => k1 == k2 && eqv v1 v2 && mapEqWith eqv r1 r2
  | _, _ => false

/-- The `impl PartialEq for Value` of `value.rs`, with the match arms in
source order.  The fuel bounds how many heap indirections may be followed
(the Rust original recurses unboundedly and diverges on cyclic graphs);
out of fuel or a dangling/mistyped address yields `false`. -/
def valueEq (h : Heap) : Nat → Value → Value → Bool
  | 0, _, _ => false
  | f + 1, a, b =>
    match a, b with
    | .number x, .number y => F64.beq x y
    | .vec4 x1 x2 x3 x4, .vec4 y1 y2 y3 y4 =>
      F64.beq x1 y1 && F64.beq x2 y2 && F64.beq x3 y3 && F64.beq x4 y4
    | .bool x, .bool y => x == y
    | .str x, .str y => x == y
    | .list x, .list y =>
      match heapGet h x, heapGet h y with
      | some (.listCell xs), some (.listCell ys) =>
        listEqWith (fun u v => valueEq h f u v) xs ys
      | _, _ => false
    | .map x, .map y =>
      match heapGet h x, heapGet h y with
      | some (.mapCell xs), some (.mapCell ys) =>
        mapEqWith (fun u v => valueEq h f u v) xs ys
      | _, _ => false
    | .share x, .share y =>
      match heapGet h x, heapGet h y with
      | some (.shareCell u), some (.shareCell v) => valueEq h f u v
      | _, _ => false
    | .share x, b =>
      match heapGet h x with
      | some (.shareCell u) => valueEq h f u b
      | _ => false
    | a, .share y =>
      match heapGet h y with
      | some (.shareCell v) => valueEq h f a v
      | _ => false
    | .function x, .function y => x == y
    | .empty, .empty => true
    | _, _ => false

/-- The values of variants over which equality in `value.rs` can be
reflexive: the equality-supporting variants (Empty, Bool, Number, Vec4, Str,
List, Map, Function, and Share cells of such values), with no NaN anywhere
inside.  Fuel bounds the heap traversal as in `valueEq`. -/
def eqSupported (h : Heap) : Nat → Value → Bool
  | 0, _ => false
  | f + 1, v =>
    match v with
    | .empty => true
    | .bool _ => true
    | .number n => !n.isNan
    | .vec4 x1 x2 x3 x4 => !(x1.isNan || x2.isNan || x3.isNan || x4.isNan)
    | .str _ => true
    | .function _ => true
    | .list a =>
      match heapGet h a with
      | some (.listCell xs) => xs.all (fun x => eqSupported h f x)
      | _ => false
    | .map a =>
      match heapGet h a with
      | some (.mapCell es) => es.all (fun e => eqSupported h f e.2)
      | _ => false
    | .share a =>
      match heapGet h a with
      | some (.shareCell w) => eqSupported h f w
      | _ => false
    | _ => false

/-- Modelled from the spec: the variants the spec describes as supporting
equality ("structural for Bool/Number/Str/List/Map; identity-based for
Function; Empty equals only Empty"; Share unwraps transparently).  This is a
variant-level predicate, used to state the original claim's side condition. -/
def supportsEqualitySpec : Value → Bool
  | .empty => true
  | .bool _ => true
  | .number _ => true
  | .str _ => true
  | .list _ => true
  | .map _ => true
  | .function _ => true
  | .share _ => true
  | _ => false

/-- Result of `PartialOrd::partial_cmp` on values: either an `Option
Ordering`, or the `panic!("partial_cmp unsupported for ...")` of the source
(the panic message renders the two operands; the constructor carries them). -/
inductive CmpResult where
  | ok (o : Option Ordering)
  | panicUnsupported (a b : Value)
deriving DecidableEq

/-- Result of `Ord::cmp` on values: an `Ordering`, or the
`panic!("cmp unsupported for ...")` of the source. -/
inductive OrdResult where
  | ok (o : Ordering)
  | panicUnsupported (a b : Value)
deriving DecidableEq

/-- The derived `PartialOrd` of `vec4::Vec4`: lexicographic field-by-field
comparison, stopping at the first non-`Equal` result, `None` propagating. -/
def vec4Pcmp (x1 x2 x3 x4 y1 y2 y3 y4 : F64) : Option Ordering :=
  match F64.pcmp x1 y1 with
  | some .eq =>
    match F64.pcmp x2 y2 with
    | some .eq =>
      match F64.pcmp x3 y3 with
      | some .eq => F64.pcmp x4 y4
      | r => r
    | r => r
  | r => r

/-- The `impl PartialOrd for Value` of `value.rs`: defined for
Number/Number, Vec4/Vec4 and Str/Str pairs; every other pair hits
`panic!("partial_cmp unsupported for ...")`.  String order is the
lexicographic order (UTF-8 byte order coincides with code-point order). -/
def valuePcmp : Value → Value → CmpResult
  | .number a, .number b => .ok (F64.pcmp a b)
  | .vec4 x1 x2 x3 x4, .vec4 y1 y2 y3 y4 =>
    .ok (vec4Pcmp x1 x2 x3 x4 y1 y2 y3 y4)
  | .str a, .str b => .ok (some (compare a b))
  | a, b => .panicUnsupported a b

/-- The `impl Ord for Value` of `value.rs`: for Number pairs, dispatch on
`is_nan` exactly as the source does (NaN/NaN equal, NaN greater than any
non-NaN, otherwise `partial_cmp(..).unwrap()` which for two non-NaN values is
the total numeric comparison); Str pairs compare lexicographically; every
other pair hits `panic!("cmp unsupported for ...")`. -/
def valueCmp : Value → Value → OrdResult
  | .number a, .number b =>
    match a, b with
    | .nan, .nan => .ok .eq
    | .num _, .nan => .ok .lt
    | .nan, .num _ => .ok .gt
    | .num x, .num y => .ok (compare x y)
  | .str a, .str b => .ok (compare a b)
  | a, b => .panicUnsupported a b

/-- The `copy_value` function of `value.rs`: a List/Map is copied by cloning
the aggregate into a fresh allocation (`Rc::new(RefCell::new(l.borrow().clone()))`
— the clone is element-wise, so element handles are shared with the
original); a Share is unwrapped one level (cloning its current contents as a
handle); every other variant is a cheap handle copy.  Returns the copy and
the heap extended with any fresh allocation. -/
def copy_value (h : Heap) (v : Value) : Value × Heap :=
  match v with
  | .list a =>
    match heapGet h a with
    | some (.listCell xs) => (.list h.length, h ++ [.listCell xs])
    | _ => (v, h)
  | .map a =>
    match heapGet h a with
    | some (.mapCell es) => (.map h.length, h ++ [.mapCell es])
    | _ => (v, h)
  | .share a =>
    match heapGet h a with
    | some (.shareCell w) => (w, h)
    | _ => (v, h)
  | _ => (v, h)

/-- A pure (heap-free) tree of runtime data: the result of reading a value
and everything reachable from it out of the heap.  Two reads of the same
value before and after a mutation differ exactly when the mutation was
observable through that value. -/
inductive PureValue where
  | empty
  | bool (b : Bool)
  | number (n : F64)
  | vec4 (x1 x2 x3 x4 : F64)
  | range (start stop : Int)
  | indexRange (start : Nat) (stop : Option Nat)
  | listV (elems : List PureValue)
  | mapV (entries : List (String × PureValue))
  | strV (s : String)
  | shareV (v : PureValue)
  | functionV (id : Nat)
  | builtinFunctionV (id : Nat) (isInstanceFunction : Bool)
  | builtinValueV (id : Nat)
  | forV (id : Nat)
  | whileV (id : Nat)

/-- Reading a list of values, given a reader for single values. -/
def snapListWith (snap : Value → Option PureValue) :
    List Value → Option (List PureValue)
  | [] => some []
  | x :: xs =>
    match snap x, snapListWith snap xs with
    | some t, some ts => some (t :: ts)
    | _, _ => none

/-- Reading the entries of a map, given a reader for single values. -/
def snapMapWith (snap : Value → Option PureValue) :
    List (String × Value) → Option (List (String × PureValue))
  | [] => some []
  | (k, v) :: es =>
    match snap v, snapMapWith snap es with
    | some t, some ts => some ((k, t) :: ts)
    | _, _ => none

/-- Deep read of a value: dereference every handle through the heap, with
fuel bounding the number of indirections (`none` when the fuel runs out or an
address is dangling). -/
def snapshot (h : Heap) : Nat → Value → Option PureValue
  | 0, _ => none
  | f + 1, v =>
    match v with
    | .empty => some .empty
    | .bool b => some (.bool b)
    | .number n => some (.number n)
    | .vec4 x1 x2 x3 x4 => some (.vec4 x1 x2 x3 x4)
    | .range a b => some (.range a b)
    | .indexRange a b => some (.indexRange a b)
    | .str s => some (.strV s)
    | .function i => some (.functionV i)
    | .builtinFunction i b => some (.builtinFunctionV i b)
    | .builtinValue i => some (.builtinValueV i)
    | .forLoop i => some (.forV i)
    | .whileLoop i => some (.whileV i)
    | .list a =>
      match heapGet h a with
      | some (.listCell xs) => (snapListWith (fun x => snapshot h f x) xs).map .listV
      | _ => none
    | .map a =>
      match heapGet h a with
      | some (.mapCell es) => (snapMapWith (fun x => snapshot h f x) es).map .mapV
      | _ => none
    | .share a =>
      match heapGet h a with
      | some (.shareCell w) => (snapshot h f w).map .shareV
      | _ => none

mutual

/-- Structural equality of pure trees. -/
def pureEq : PureValue → PureValue → Bool
  | .empty, .empty => true
  | .bool a, .bool b => a == b
  | .number a, .number b => a == b
  | .vec4 a1 a2 a3 a4, .vec4 b1 b2 b3 b4 =>
    a1 == b1 && a2 == b2 && a3 == b3 && a4 == b4
  | .range a1 a2, .range b1 b2 => a1 == b1 && a2 == b2
  | .indexRange a1 a2, .indexRange b1 b2 => a1 == b1 && a2 == b2
  | .listV xs, .listV ys => pureListEq xs ys
  | .mapV xs, .mapV ys => pureMapEq xs ys
  | .strV a, .strV b => a == b
  | .shareV a, .shareV b => pureEq a b
  | .functionV a, .functionV b => a == b
  | .builtinFunctionV a ab, .builtinFunctionV b bb => a == b && ab == bb
  | .builtinValueV a, .builtinValueV b => a == b
  | .forV a, .forV b => a == b
  | .whileV a, .whileV b => a == b
  | _, _ => false

/-- Structural equality of lists of pure trees. -/
def pureListEq : List PureValue → List PureValue → Bool
  | [], [] => true
  | x :: xs, y :: ys => pureEq x y && pureListEq xs ys
  | _, _ => false

/-- Structural equality of map entries of pure trees. -/
def pureMapEq : List (String × PureValue) → List (String × PureValue) → Bool
  | [], [] => true
  | (k1, v1) :: r1, (k2, v2) :: r2 => k1 == k2 && pureEq v1 v2 && pureMapEq r1 r2
  | _, _ => false

end

/-- Equality of optional pure trees. -/
def pureOptEq : Option PureValue → Option PureValue → Bool
  | some a, some b => pureEq a b
  | none, none => true
  | _, _ => false

/-- The addresses a value can reach through the heap within `fuel`
indirections. -/
def reachAddrs (h : Heap) : Nat → Value → List Addr
  | 0, _ => []
  | f + 1, v =>
    match v with
    | .list a =>
      a :: (match heapGet h a with
        | some (.listCell xs) => (xs.map (fun x => reachAddrs h f x)).flatten
        | _ => [])
    | .map a =>
      a :: (match heapGet h a with
        | some (.mapCell es) => (es.map (fun e => reachAddrs h f e.2)).flatten
        | _ => [])
    | .share a =>
      a :: (match heapGet h a with
        | some (.shareCell w) => reachAddrs h f w
        | _ => [])
    | _ => []

/-- The addresses held directly by a value. -/
def valueAddrs : Value → List Addr
  | .list a => [a]
  | .map a => [a]
  | .share a => [a]
  | _ => []

/-- The values held directly by an allocation. -/
def cellVals : Cell → List Value
  | .listCell xs => xs
  | .mapCell es => es.map (fun e => e.2)
  | .shareCell v => [v]

/-- Every address held by the allocation is below `n`. -/
def cellBounded (n : Nat) (c : Cell) : Bool :=
  (cellVals c).all (fun v => (valueAddrs v).all (fun a => a < n))

/-- Every address stored anywhere in the heap is below `n`: the heap has no
dangling references when `n` is its length. -/
def heapBounded (n : Nat) (h : Heap) : Bool :=
  h.all (fun c => cellBounded n c)

end Runtime

namespace Parser

/-- One piece of data fed to the builder's incremental hasher.  The 64-bit
`DefaultHasher` of the source is modelled by the transcript of the items it
consumed: a collision-free abstraction of the hash (distinct transcripts are
taken to give distinct 64-bit hashes). -/
inductive HashItem where
  | hStr (s : String)
  | hF64 (bits : Nat)
  | hI64 (n : Int)
deriving DecidableEq

/-- The `ConstantEntry` enum of `constant_pool.rs`.  An `f64` constant is
identified by its bit pattern (which is also its dedup key); a string entry
is a range into the concatenated string data (positions counted in
characters rather than UTF-8 bytes, which relabels but preserves the
ranges). -/
inductive ConstantEntry where
  | f64 (bits : Nat)
  | i64 (n : Int)
  | str (start stop : Nat)
deriving DecidableEq

/-- The `ConstantPool` struct: the entry list, the concatenated string data,
and the aggregate hash (modelled as the hasher transcript). -/
structure ConstantPool where
  constants : List ConstantEntry
  stringData : String
  hash : List HashItem
deriving DecidableEq

/-- `impl PartialEq for ConstantPool`: equality compares only the
pre-computed aggregate hash, never the entries themselves. -/
def ConstantPool.beq (a b : ConstantPool) : Bool := a.hash == b.hash

/-- `ConstantPool::size`. -/
def ConstantPool.size (p : ConstantPool) : Nat := p.constants.length

/-- `ConstantPool::get`. -/
def ConstantPool.get (p : ConstantPool) (index : Nat) : Option ConstantEntry :=
  p.constants.get? index

/-- The bound enforced by `ConstantIndex::try_from`.  Modelled from the
spec and the tests: a constant index is a small integer (`u8`-sized), and
adding a constant fails with an explicit out-of-range error once the bound
is reached. -/
def constantIndexLimit : Nat := 256

/-- Lookup in one of the builder's dedup maps (assoc-list model of
`HashMap`). -/
def assocGet {α : Type} [BEq α] (m : List (α × Nat)) (k : α) : Option Nat :=
  match m with
  | [] => none
  | (k1, v1) :: rest => if k == k1 then some v1 else assocGet rest k

/-- The `ConstantPoolBuilder` struct: entries, concatenated string data, the
incremental hasher (as its transcript), and the three dedup maps. -/
structure ConstantPoolBuilder where
  constants : List ConstantEntry
  stringData : String
  hasher : List HashItem
  stringMap : List (String × Nat)
  floatMap : List (Nat × Nat)
  intMap : List (Int × Nat)
deriving DecidableEq

/-- `ConstantPoolBuilder::default()`. -/
def emptyBuilder : ConstantPoolBuilder := ⟨[], "", [], [], [], []⟩

/-- `ConstantPoolBuilder::add_string`: a dedup-map hit returns the stored
index; otherwise the next index is claimed (failing past the index bound),
the string is appended to the string data, the entry recorded, the string
hashed, and the dedup map extended. -/
def ConstantPoolBuilder.add_string (b : ConstantPoolBuilder) (s : String) :
    Except Unit Nat × ConstantPoolBuilder :=
  match assocGet b.stringMap s with
  | some index => (.ok index, b)
  | none =>
    if b.constants.length < constantIndexLimit then
      let result := b.constants.length
      let start := b.stringData.length
      (.ok result,
        { b with
          stringData := b.stringData ++ s
          constants := b.constants ++ [.str start (start + s.length)]
          hasher := b.hasher ++ [.hStr s]
          stringMap := (s, result) :: b.stringMap })
    else (.error (), b)

/-- `ConstantPoolBuilder::add_f64`: the float is deduplicated and hashed by
its bit pattern `n.to_bits()`. -/
def ConstantPoolBuilder.add_f64 (b : ConstantPoolBuilder) (bits : Nat) :
    Except Unit Nat × ConstantPoolBuilder :=
  match assocGet b.floatMap bits with
  | some index => (.ok index, b)
  | none =>
    if b.constants.length < constantIndexLimit then
      let result := b.constants.length
      (.ok result,
        { b with
          constants := b.constants ++ [.f64 bits]
          hasher := b.hasher ++ [.hF64 bits]
          floatMap := (bits, result) :: b.floatMap })
    else (.error (), b)

/-- `ConstantPoolBuilder::add_i64`. -/
def ConstantPoolBuilder.add_i64 (b : ConstantPoolBuilder) (n : Int) :
    Except Unit Nat × ConstantPoolBuilder :=
  match assocGet b.intMap n with
  | some index => (.ok index, b)
  | none =>
    if b.constants.length < constantIndexLimit then
      let result := b.constants.length
      (.ok result,
        { b with
          constants := b.constants ++ [.i64 n]
          hasher := b.hasher ++ [.hI64 n]
          intMap := (n, result) :: b.intMap })
    else (.error (), b)

/-- `ConstantPoolBuilder::build`: the pool's hash is the finished hasher. -/
def ConstantPoolBuilder.build (b : ConstantPoolBuilder) : ConstantPool :=
  ⟨b.constants, b.stringData, b.hasher⟩

/-- A literal presented to the builder: a string, a float given by its bit
pattern, or an integer. -/
inductive Literal where
  | str (s : String)
  | f64 (bits : Nat)
  | i64 (n : Int)
deriving DecidableEq

/-- Adding one literal, dispatching to the matching `add_*` method. -/
def addLiteral (b : ConstantPoolBuilder) (l : Literal) :
    Except Unit Nat × ConstantPoolBuilder :=
  match l with
  | .str s => b.add_string s
  | .f64 bits => b.add_f64 bits
  | .i64 n => b.add_i64 n

/-- Adding a sequence of literals left to right. -/
def addAll (b : ConstantPoolBuilder) : List Literal → ConstantPoolBuilder
  | [] => b
  | l :: ls => addAll (addLiteral b l).2 ls

/-- The dedup-map entry a literal is looked up in. -/
def builderLookup (b : ConstantPoolBuilder) : Literal → Option Nat
  | .str s => assocGet b.stringMap s
  | .f64 bits => assocGet b.floatMap bits
  | .i64 n => assocGet b.intMap n

/-- The hasher item recorded for a literal the first time it is added. -/
def Literal.hashItem : Literal → HashItem
  | .str s => .hStr s
  | .f64 bits => .hF64 bits
  | .i64 n => .hI64 n

/-- First occurrences of the literals of a sequence appended to an
accumulator: the distinct literals in order of first appearance. -/
def addFirstOcc (acc : List Literal) : List Literal → List Literal
  | [] => acc
  | l :: ls => addFirstOcc (if l ∈ acc then acc else acc ++ [l]) ls

/-- The distinct literals of a sequence, in order of first appearance. -/
def firstOccurrences (ls : List Literal) : List Literal := addFirstOcc [] ls

end Parser

namespace Driver

/-!
Model of `src/koto/src/lib.rs`.  The parser, compiler and virtual machine are
external collaborators (per the spec); their results enter the driver
operations as parameters.  The driver-facing runtime value type (a later
revision of the runtime crate than `value.rs`) is not among the provided
sources, so it is modelled from the spec.
-/

/-- Modelled from the spec: the driver-facing runtime value union, reduced to
the variants the driver code touches — the empty value, strings, ordered
lists, string-keyed maps, script-defined functions (`Value::Function`,
held as `RuntimeFunction` handles, modelled by identity), and host-defined
callable functions (BuiltinFunction, "host-defined" per the spec's value
model).  Aggregates are inlined since no driver claim depends on aliasing. -/
inductive RValue where
  | empty
  | bool (b : Bool)
  | number (n : F64)
  | str (s : String)
  | list (elems : List RValue)
  | map (entries : List (String × RValue))
  | function (id : Nat)
  | builtinFunction (id : Nat)

/-- Modelled from the spec: the callable values of the value model — script
functions and host-defined builtin functions. -/
def RValue.isCallable : RValue → Bool
  | .function _ => true
  | .builtinFunction _ => true
  | _ => false

/-- Whether a driver-facing value is the empty value. -/
def RValue.isEmptyValue : RValue → Bool
  | .empty => true
  | _ => false

/-- Lookup in a string-keyed value map (`ValueMap` / the global namespace). -/
def mapGet (m : List (String × RValue)) (k : String) : Option RValue :=
  match m with
  | [] => none
  | (k1, v1) :: rest => if k == k1 then some v1 else mapGet rest k

/-- Insert-or-replace in a string-keyed value map (`add_value`/`add_list`/
`add_map` insert into the backing map, overwriting an existing entry). -/
def mapInsert (m : List (String × RValue)) (k : String) (v : RValue) :
    List (String × RValue) :=
  match m with
  | [] => [(k, v)]
  | (k1, v1) :: rest =>
    if k == k1 then (k, v) :: rest else (k1, v1) :: mapInsert rest k v

/-- A 1-based source position (`koto_parser::Position`). -/
structure Position where
  line : Nat
  column : Nat
deriving DecidableEq

/-- A parse error as the driver sees it: its rendered message
(`e.to_string()`) and its source span. -/
structure ParseError where
  message : String
  spanStart : Position
  spanEnd : Position

/-- Modelled from the spec: debug info maps a failing instruction index to an
optional source span. -/
structure DebugInfo where
  scriptPath : Option String
  sourceSpans : List (Nat × Position × Position)

/-- `DebugInfo::get_source_span`. -/
def DebugInfo.get_source_span (d : DebugInfo) (instruction : Nat) :
    Option (Position × Position) :=
  match d.sourceSpans.find? (fun e => e.1 == instruction) with
  | some e => some e.2
  | none => none

/-- A compiled chunk: bytecode plus debug info. -/
structure Chunk where
  bytes : List Nat
  debugInfo : DebugInfo

/-- The driver's `Options` struct. -/
structure KotoOptions where
  showAnnotated : Bool
  showBytecode : Bool
  replMode : Bool

/-- `Options::default()`. -/
def defaultKotoOptions : KotoOptions := ⟨false, false, false⟩

/-- The `Koto` driver struct.  The global namespace owned by the VM is
modelled as the `globals` map. -/
structure Koto where
  script : String
  scriptPath : Option String
  globals : List (String × RValue)
  options : KotoOptions
  chunk : Option Chunk

/-- The runtime `Error` enum as the driver matches on it: a VM fault carrying
a failing instruction index, or a host/external fault carrying only a
message (`Error::ExternalError`). -/
inductive RunError where
  | vmError (message : String) (instruction : Nat)
  | hostError (message : String)

/-- Outcome of handing a chunk or a function to the external VM. -/
abbrev RunResult := Except RunError RValue

/-- A single quote character, used by the "function not found" message. -/
def sq : String := (Char.ofNat 39).toString

/-- A run of `n` spaces (`" ".repeat(n)`). -/
def spaces (n : Nat) : String := String.mk (List.replicate n ' ')

/-- A run of `n` carets (`"^".repeat(n)`). -/
def caretRun (n : Nat) : String := String.mk (List.replicate n '^')

/-- Right-alignment to a field width, as the `{:>width$}` format directive:
pad on the left with spaces up to `width`. -/
def rightAlign (s : String) (width : Nat) : String :=
  spaces (width - s.length) ++ s

/-- Splitting a character stream at newlines, accumulating the current
line's characters in reverse. -/
def splitLinesAux : List Char → List Char → List String
  | [], acc => [String.mk acc.reverse]
  | c :: cs, acc =>
    if c = '\n' then String.mk acc.reverse :: splitLinesAux cs []
    else splitLinesAux cs (c :: acc)

/-- Rust's `str::lines`: split on newline, with no empty trailing line for a
trailing newline (so the empty string has no lines).  (Carriage returns are
not modelled; the claims' scripts use plain newlines.) -/
def rustLines (s : String) : List String :=
  let parts := splitLinesAux s.data []
  match parts.getLast? with
  | some "" => parts.dropLast
  | _ => parts

/-- The inclusive line-number range `start..=end` of the excerpt. -/
def rangeInclusive (a b : Nat) : List Nat :=
  if b < a then [] else List.range' a (b - a + 1)

/-- The width taken by the line numbers:
`line_numbers.iter().max_by_key(|n| n.len()).unwrap().len()`. -/
def maxLen (l : List String) : Nat :=
  l.foldl (fun acc s => max acc s.length) 0

/-- `Koto::format_error`: renders a diagnostic for a message and a source
span.  A single-line excerpt is the source line behind a right-aligned line
number, then a caret line: the padding, a bar, `start.column` spaces and
`end.column - start.column` carets.  A multi-line excerpt renders each line
behind its right-aligned number with no caret line.  (The source method
takes `&self` but reads nothing from it.) -/
def formatError (message script : String) (startPos endPos : Position) : String :=
  let excerptLines :=
    ((rustLines script).drop (startPos.line - 1)).take (endPos.line - startPos.line + 1)
  let lineNumbers := (rangeInclusive startPos.line endPos.line).map toString
  let numberWidth := maxLen lineNumbers
  let padding := spaces (numberWidth + 2)
  let excerpt :=
    if excerptLines.length == 1 then
      " " ++ rightAlign ((lineNumbers.head?).getD "") numberWidth ++ " | " ++
        ((excerptLines.head?).getD "") ++ "\n" ++
      padding ++ "|" ++ spaces startPos.column ++
        caretRun (endPos.column - startPos.column)
    else
      String.join ((excerptLines.zip lineNumbers).map (fun p =>
        " " ++ rightAlign p.2 numberWidth ++ " | " ++ p.1 ++ "\n"))
  message ++ "\n --> " ++ toString startPos.line ++ ":" ++
    toString startPos.column ++ "\n" ++ padding ++ "|\n" ++ excerpt

/-- `Koto::format_vm_error`: resolve the failing instruction through the
current chunk's debug info; with a span, render a source excerpt, otherwise
the fallback message naming the raw instruction index.  (The VM's current
chunk is the driver's installed chunk.) -/
def Koto.format_vm_error (k : Koto) (message : String) (instruction : Nat) : String :=
  match k.chunk with
  | some ch =>
    match ch.debugInfo.get_source_span instruction with
    | some span => formatError message k.script span.1 span.2
    | none =>
      "Runtime error at instruction " ++ toString instruction ++ ": " ++ message ++ "\n"
  | none =>
    "Runtime error at instruction " ++ toString instruction ++ ": " ++ message ++ "\n"

/-- `Koto::new`: seed the global namespace with the registered std modules
(external, passed in) and then the "env" map holding `script_dir`,
`script_path` (both initially empty) and an empty `args` list. -/
def Koto.new (std : List (String × RValue)) : Koto :=
  { script := ""
    scriptPath := none
    globals := mapInsert std "env"
      (.map (mapInsert (mapInsert (mapInsert [] "script_dir" .empty)
        "script_path" .empty) "args" (.list [])))
    options := defaultKotoOptions
    chunk := none }

/-- `Koto::compile`: the external parser's and compiler's outcomes enter as
parameters (the AST is opaque).  A parse error returns a formatted
diagnostic at once; after a successful parse the previous chunk is
discarded, and the compiler's outcome either installs the new chunk and
stores the script text, or yields a compile-error message with the chunk
left empty. -/
def Koto.compile (k : Koto) (script : String)
    (parseResult : Except ParseError Nat)
    (compileResult : Nat → Except String (List Nat × DebugInfo)) :
    Except String Unit × Koto :=
  match parseResult with
  | .error e =>
    (.error (formatError e.message script e.spanStart e.spanEnd), k)
  | .ok ast =>
    let k1 : Koto := { k with chunk := none }
    match compileResult ast with
    | .ok bd =>
      let chunk : Chunk := ⟨bd.1, { bd.2 with scriptPath := k.scriptPath }⟩
      (.ok (), { k1 with chunk := some chunk, script := script })
    | .error e =>
      (.error ("Error while compiling script: " ++ e), k1)

/-- `Koto::get_global_function`: a global binding is returned only when it is
a script `Function` value. -/
def Koto.get_global_function (k : Koto) (id : String) : Option Nat :=
  match mapGet k.globals id with
  | some (.function f) => some f
  | _ => none

/-- `Koto::call_function`: hand the function and arguments to the external
VM; a VM fault is rendered through the debug info, a host fault as an
"Error:" line. -/
def Koto.call_function (k : Koto)
    (vmRunFunction : Nat → List RValue → RunResult)
    (f : Nat) (args : List RValue) : Except String RValue :=
  match vmRunFunction f args with
  | .ok result => .ok result
  | .error (.vmError message instruction) =>
    .error (k.format_vm_error message instruction)
  | .error (.hostError message) => .error ("Error: " ++ message ++ "\n")

/-- `Koto::call_function_by_name`: look the name up among the globals; only
a script `Function` binding is invoked, anything else yields the
"function not found" error. -/
def Koto.call_function_by_name (k : Koto)
    (vmRunFunction : Nat → List RValue → RunResult)
    (name : String) (args : List RValue) : Except String RValue :=
  match k.get_global_function name with
  | some f => k.call_function vmRunFunction f args
  | none =>
    .error ("Runtime error: function " ++ sq ++ name ++ sq ++ " not found")

/-- `Koto::run`: with no chunk installed this is a no-op returning the empty
value.  Otherwise the chunk is handed to the external VM (outcome passed as
a parameter); a fault is formatted as in `call_function`; on success, a
global `main` function is called with no arguments and its result returned
in place of the chunk's top-level result. -/
def Koto.run (k : Koto) (vmRun : RunResult)
    (vmRunFunction : Nat → List RValue → RunResult) : Except String RValue :=
  match k.chunk with
  | none => .ok .empty
  | some _ =>
    match vmRun with
    | .error (.vmError message instruction) =>
      .error (k.format_vm_error message instruction)
    | .error (.hostError message) => .error ("Error: " ++ message ++ "\n")
    | .ok result =>
      match k.get_global_function "main" with
      | some mainF => k.call_function vmRunFunction mainF []
      | none => .ok result

/-- `Koto::set_args`: the argument strings become a list of `Str` values in
order, written over the `args` entry of the global `env` map (reached
through `get_mut("env")`; a missing or non-map `env` is the source's
`unwrap`/`unreachable!`, modelled as `none`). -/
def Koto.set_args (k : Koto) (args : List String) : Option Koto :=
  match mapGet k.globals "env" with
  | some (.map env) =>
    some { k with
      globals := mapInsert k.globals "env"
        (.map (mapInsert env "args" (.list (args.map RValue.str)))) }
  | _ => none

end Driver

/-! ## Theorems -/

namespace Runtime

/-- Pointwise reflexivity lifts to `listEqWith`. -/
theorem listEqWith_refl (eqv : Value → Value → Bool) :
    ∀ xs : List Value, (∀ x ∈ xs, eqv x x = true) → listEqWith eqv xs xs = true := by
  intro xs
  induction xs with
  | nil => intro _; rfl
  | cons x xs ih =>
    intro hx
    simp only [listEqWith, Bool.and_eq_true]
    exact ⟨hx x (by simp), ih (fun y hy => hx y (by simp [hy]))⟩

/-- Pointwise reflexivity lifts to `mapEqWith`. -/
theorem mapEqWith_refl (eqv : Value → Value → Bool) :
    ∀ es : List (String × Value), (∀ e ∈ es, eqv e.2 e.2 = true) →
      mapEqWith eqv es es = true := by
  intro es
  induction es with
  | nil => intro _; rfl
  | cons e es ih =>
    intro he
    obtain ⟨k, v⟩ := e
    simp only [mapEqWith, Bool.and_eq_true]
    exact ⟨⟨by simp, he (k, v) (by simp)⟩, ih (fun y hy => he y (by simp [hy]))⟩

/-- Values of the equality-supporting variants that contain no NaN compare
equal to themselves. -/
theorem valueEq_refl (h : Heap) :
    ∀ f v, eqSupported h f v = true → valueEq h f v v = true := by
  intro f
  induction f with
  | zero => intro v hv; simp [eqSupported] at hv
  | succ f ih =>
    intro v hv
    cases v with
    | empty => rfl
    | bool b => simp [valueEq]
    | number n =>
      cases n with
      | nan => simp [eqSupported, F64.isNan] at hv
      | num q => simp [valueEq, F64.beq]
    | vec4 x1 x2 x3 x4 =>
      simp only [eqSupported, Bool.not_eq_true', Bool.or_eq_false_iff] at hv
      cases x1 <;> cases x2 <;> cases x3 <;> cases x4 <;>
        simp_all [valueEq, F64.beq, F64.isNan]
    | str s => simp [valueEq]
    | function i => simp [valueEq]
    | list a =>
      simp only [eqSupported] at hv
      cases hget : heapGet h a with
      | none => rw [hget] at hv; simp at hv
      | some c =>
        cases c with
        | listCell xs =>
          rw [hget] at hv
          simp only [List.all_eq_true] at hv
          simp only [valueEq, hget]
          exact listEqWith_refl _ xs (fun x hx => ih x (hv x hx))
        | mapCell es => rw [hget] at hv; simp at hv
        | shareCell w => rw [hget] at hv; simp at hv
    | map a =>
      simp only [eqSupported] at hv
      cases hget : heapGet h a with
      | none => rw [hget] at hv; simp at hv
      | some c =>
        cases c with
        | listCell xs => rw [hget] at hv; simp at hv
        | mapCell es =>
          rw [hget] at hv
          simp only [List.all_eq_true] at hv
          simp only [valueEq, hget]
          exact mapEqWith_refl _ es (fun e he => ih e.2 (hv e he))
        | shareCell w => rw [hget] at hv; simp at hv
    | share a =>
      simp only [eqSupported] at hv
      cases hget : heapGet h a with
      | none => rw [hget] at hv; simp at hv
      | some c =>
        cases c with
        | listCell xs => rw [hget] at hv; simp at hv
        | mapCell es => rw [hget] at hv; simp at hv
        | shareCell w =>
          rw [hget] at hv
          simp only [valueEq, hget]
          exact ih w hv
    | range s e => simp [eqSupported] at hv
    | indexRange s e => simp [eqSupported] at hv
    | builtinFunction i b => simp [eqSupported] at hv
    | builtinValue i => simp [eqSupported] at hv
    | forLoop i => simp [eqSupported] at hv
    | whileLoop i => simp [eqSupported] at hv

/-- Wrapping a supported value in a Share cell is transparent on the left of
an equality: `Share(v) == v`. -/
theorem valueEq_share_left (h : Heap) :
    ∀ f v a, heapGet h a = some (.shareCell v) → eqSupported h f v = true →
      valueEq h (f + 1) (.share a) v = true := by
  intro f
  induction f with
  | zero => intro v a _ hv; simp [eqSupported] at hv
  | succ f ih =>
    intro v a hcell hv
    cases v with
    | share b =>
      simp only [eqSupported] at hv
      cases hb : heapGet h b with
      | none => rw [hb] at hv; simp at hv
      | some c =>
        cases c with
        | listCell xs => rw [hb] at hv; simp at hv
        | mapCell es => rw [hb] at hv; simp at hv
        | shareCell w =>
          rw [hb] at hv
          simp only [valueEq, hcell, hb]
          exact ih w b hb hv
    | empty => simp only [valueEq, hcell]
    | bool x => simp only [valueEq, hcell]; exact valueEq_refl h _ _ hv
    | number n => simp only [valueEq, hcell]; exact valueEq_refl h _ _ hv
    | vec4 x1 x2 x3 x4 => simp only [valueEq, hcell]; exact valueEq_refl h _ _ hv
    | range s e => simp [eqSupported] at hv
    | indexRange s e => simp [eqSupported] at hv
    | list x => simp only [valueEq, hcell]; exact valueEq_refl h _ _ hv
    | map x => simp only [valueEq, hcell]; exact valueEq_refl h _ _ hv
    | str s => simp only [valueEq, hcell]; exact valueEq_refl h _ _ hv
    | function i => simp only [valueEq, hcell]; exact valueEq_refl h _ _ hv
    | builtinFunction i b => simp [eqSupported] at hv
    | builtinValue i => simp [eqSupported] at hv
    | forLoop i => simp [eqSupported] at hv
    | whileLoop i => simp [eqSupported] at hv

/-- Wrapping a supported value in a Share cell is transparent on the right of
an equality: `v == Share(v)`. -/
theorem valueEq_share_right (h : Heap) :
    ∀ f v a, heapGet h a = some (.shareCell v) → eqSupported h f v = true →
      valueEq h (f + 1) v (.share a) = true := by
  intro f
  induction f with
  | zero => intro v a _ hv; simp [eqSupported] at hv
  | succ f ih =>
    intro v a hcell hv
    cases v with
    | share b =>
      simp only [eqSupported] at hv
      cases hb : heapGet h b with
      | none => rw [hb] at hv; simp at hv
      | some c =>
        cases c with
        | listCell xs => rw [hb] at hv; simp at hv
        | mapCell es => rw [hb] at hv; simp at hv
        | shareCell w =>
          rw [hb] at hv
          simp only [valueEq, hcell, hb]
          exact ih w b hb hv
    | empty => simp only [valueEq, hcell]
    | bool x => simp only [valueEq, hcell]; exact valueEq_refl h _ _ hv
    | number n => simp only [valueEq, hcell]; exact valueEq_refl h _ _ hv
    | vec4 x1 x2 x3 x4 => simp only [valueEq, hcell]; exact valueEq_refl h _ _ hv
    | range s e => simp [eqSupported] at hv
    | indexRange s e => simp [eqSupported] at hv
    | list x => simp only [valueEq, hcell]; exact valueEq_refl h _ _ hv
    | map x => simp only [valueEq, hcell]; exact valueEq_refl h _ _ hv
    | str s => simp only [valueEq, hcell]; exact valueEq_refl h _ _ hv
    | function i => simp only [valueEq, hcell]; exact valueEq_refl h _ _ hv
    | builtinFunction i b => simp [eqSupported] at hv
    | builtinValue i => simp [eqSupported] at hv
    | forLoop i => simp [eqSupported] at hv
    | whileLoop i => simp [eqSupported] at hv

/-- C1 (corrected).  For every value of an equality-supporting variant that
contains no NaN, `v == v` holds, and wrapping either side in a Share cell
containing `v` preserves equality: `Share(v) == v` and `v == Share(v)`. -/
theorem c1_eq_reflexive_share_transparent (h : Heap) (f : Nat) (v : Value)
    (a : Addr) (hsup : eqSupported h f v = true)
    (hcell : heapGet h a = some (.shareCell v)) :
    valueEq h f v v = true ∧ valueEq h (f + 1) (.share a) v = true ∧
      valueEq h (f + 1) v (.share a) = true :=
  ⟨valueEq_refl h f v hsup, valueEq_share_left h f v a hcell hsup,
    valueEq_share_right h f v a hcell hsup⟩

/-- C1 witness: the theorem applied to the number 1 stored in a Share cell at
address 0. -/
theorem c1_witness :
    valueEq [Cell.shareCell (Value.number (F64.num 1))] 1
        (Value.number (F64.num 1)) (Value.number (F64.num 1)) = true ∧
      valueEq [Cell.shareCell (Value.number (F64.num 1))] 2
        (Value.share 0) (Value.number (F64.num 1)) = true ∧
      valueEq [Cell.shareCell (Value.number (F64.num 1))] 2
        (Value.number (F64.num 1)) (Value.share 0) = true :=
  c1_eq_reflexive_share_transparent
    [Cell.shareCell (Value.number (F64.num 1))] 1
    (Value.number (F64.num 1)) 0 (by decide) (by decide)

/-- C1 counterexample: `Number(NaN)` is of an equality-supporting variant
(the spec declares equality structural for Number), yet it does not compare
equal to itself, because `f64 == f64` is false for NaN. -/
theorem c1_counterexample :
    supportsEqualitySpec (Value.number F64.nan) = true ∧
      valueEq [] 3 (Value.number F64.nan) (Value.number F64.nan) = false :=
  ⟨rfl, rfl⟩

/-- C3.  Comparing a pair of values outside the supported set
(Number/Number, Vec4/Vec4, Str/Str for the partial order; Number/Number,
Str/Str for the total order) does not produce a catchable runtime error: both
`partial_cmp` and `cmp` hit an unconditional `panic!`, shown here at
`Bool(true)` versus `Empty`. -/
theorem c3_unsupported_comparison_panics :
    valuePcmp (Value.bool true) Value.empty =
        CmpResult.panicUnsupported (Value.bool true) Value.empty ∧
      valueCmp (Value.bool true) Value.empty =
        OrdResult.panicUnsupported (Value.bool true) Value.empty :=
  ⟨rfl, rfl⟩

/-- Reading a list of values only depends on the reader's behaviour on its
elements. -/
theorem snapListWith_congr (s1 s2 : Value → Option PureValue) :
    ∀ xs : List Value, (∀ x ∈ xs, s1 x = s2 x) →
      snapListWith s1 xs = snapListWith s2 xs := by
  intro xs
  induction xs with
  | nil => intro _; rfl
  | cons x xs ih =>
    intro hx
    simp only [snapListWith, hx x (by simp), ih (fun y hy => hx y (by simp [hy]))]

/-- Reading map entries only depends on the reader's behaviour on its
values. -/
theorem snapMapWith_congr (s1 s2 : Value → Option PureValue) :
    ∀ es : List (String × Value), (∀ e ∈ es, s1 e.2 = s2 e.2) →
      snapMapWith s1 es = snapMapWith s2 es := by
  intro es
  induction es with
  | nil => intro _; rfl
  | cons e es ih =>
    intro he
    obtain ⟨k, v⟩ := e
    simp only [snapMapWith, he (k, v) (by simp),
      ih (fun y hy => he y (by simp [hy]))]

/-- A deep read of a value whose addresses stay below `n`, out of a heap all
of whose stored addresses stay below `n`, is unchanged by any heap
modification that leaves the allocations below `n` alone.  In particular a
fresh allocation, or a write to a fresh allocation, is invisible to every
pre-existing value. -/
theorem snapshot_agree_below (n : Nat) (h1 h2 : Heap)
    (hb : heapBounded n h1 = true)
    (hagree : ∀ i, i < n → heapGet h2 i = heapGet h1 i) :
    ∀ f v, (valueAddrs v).all (fun a => a < n) = true →
      snapshot h2 f v = snapshot h1 f v := by
  intro f
  induction f with
  | zero => intro v _; rfl
  | succ f ih =>
    intro v hv
    have hcellelems : ∀ (a : Addr) (c : Cell), heapGet h1 a = some c →
        ∀ x ∈ cellVals c, (valueAddrs x).all (fun b => b < n) = true := by
      intro a c hget x hx
      have hc : c ∈ h1 := List.get?_mem hget
      have := (List.all_eq_true.mp (List.all_eq_true.mp hb c hc)) x hx
      exact this
    cases v with
    | empty => rfl
    | bool b => rfl
    | number m => rfl
    | vec4 x1 x2 x3 x4 => rfl
    | range s e => rfl
    | indexRange s e => rfl
    | str s => rfl
    | function i => rfl
    | builtinFunction i b => rfl
    | builtinValue i => rfl
    | forLoop i => rfl
    | whileLoop i => rfl
    | list a =>
      have ha : a < n := by simpa [valueAddrs] using hv
      rw [show snapshot h2 (f + 1) (.list a) =
          (match heapGet h2 a with
            | some (.listCell xs) =>
              (snapListWith (fun x => snapshot h2 f x) xs).map .listV
            | _ => none) from rfl,
        show snapshot h1 (f + 1) (.list a) =
          (match heapGet h1 a with
            | some (.listCell xs) =>
              (snapListWith (fun x => snapshot h1 f x) xs).map .listV
            | _ => none) from rfl,
        hagree a ha]
      cases hget : heapGet h1 a with
      | none => rfl
      | some c =>
        cases c with
        | listCell xs =>
          have : snapListWith (fun x => snapshot h2 f x) xs =
              snapListWith (fun x => snapshot h1 f x) xs :=
            snapListWith_congr _ _ xs (fun x hx =>
              ih x (hcellelems a (.listCell xs) hget x (by simpa [cellVals] using hx)))
          simp [this]
        | mapCell es => rfl
        | shareCell w => rfl
    | map a =>
      have ha : a < n := by simpa [valueAddrs] using hv
      rw [show snapshot h2 (f + 1) (.map a) =
          (match heapGet h2 a with
            | some (.mapCell es) =>
              (snapMapWith (fun x => snapshot h2 f x) es).map .mapV
            | _ => none) from rfl,
        show snapshot h1 (f + 1) (.map a) =
          (match heapGet h1 a with
            | some (.mapCell es) =>
              (snapMapWith (fun x => snapshot h1 f x) es).map .mapV
            | _ => none) from rfl,
        hagree a ha]
      cases hget : heapGet h1 a with
      | none => rfl
      | some c =>
        cases c with
        | listCell xs => rfl
        | mapCell es =>
          have : snapMapWith (fun x => snapshot h2 f x) es =
              snapMapWith (fun x => snapshot h1 f x) es :=
            snapMapWith_congr _ _ es (fun e he =>
              ih e.2 (hcellelems a (.mapCell es) hget e.2 (by
                simp only [cellVals, List.mem_map]
                exact ⟨e, he, rfl⟩)))
          simp [this]
        | shareCell w => rfl
    | share a =>
      have ha : a < n := by simpa [valueAddrs] using hv
      rw [show snapshot h2 (f + 1) (.share a) =
          (match heapGet h2 a with
            | some (.shareCell w) => (snapshot h2 f w).map .shareV
            | _ => none) from rfl,
        show snapshot h1 (f + 1) (.share a) =
          (match heapGet h1 a with
            | some (.shareCell w) => (snapshot h1 f w).map .shareV
            | _ => none) from rfl,
        hagree a ha]
      cases hget : heapGet h1 a with
      | none => rfl
      | some c =>
        cases c with
        | listCell xs => rfl
        | mapCell es => rfl
        | shareCell w =>
          have : snapshot h2 f w = snapshot h1 f w :=
            ih w (hcellelems a (.shareCell w) hget w (by simp [cellVals]))
          simp [this]

/-- Writing one allocation leaves every other allocation unchanged. -/
theorem heapGet_set_ne (h : Heap) (a b : Addr) (c : Cell) (hne : a ≠ b) :
    heapGet (setCell h a c) b = heapGet h b := by
  simp [heapGet, setCell, List.get?_eq_getElem?, List.getElem?_set_ne hne]

/-- A deep read of a value is unchanged by a write to an allocation the value
cannot reach (within the read's fuel). -/
theorem snapshot_set_unreachable (h : Heap) (a0 : Addr) (c : Cell) :
    ∀ f v, a0 ∉ reachAddrs h f v →
      snapshot (setCell h a0 c) f v = snapshot h f v := by
  intro f
  induction f with
  | zero => intro v _; rfl
  | succ f ih =>
    intro v hv
    cases v with
    | empty => rfl
    | bool b => rfl
    | number m => rfl
    | vec4 x1 x2 x3 x4 => rfl
    | range s e => rfl
    | indexRange s e => rfl
    | str s => rfl
    | function i => rfl
    | builtinFunction i b => rfl
    | builtinValue i => rfl
    | forLoop i => rfl
    | whileLoop i => rfl
    | list a =>
      simp only [reachAddrs, List.mem_cons, not_or] at hv
      obtain ⟨hne, hrest⟩ := hv
      rw [show snapshot (setCell h a0 c) (f + 1) (.list a) =
          (match heapGet (setCell h a0 c) a with
            | some (.listCell xs) =>
              (snapListWith (fun x => snapshot (setCell h a0 c) f x) xs).map .listV
            | _ => none) from rfl,
        show snapshot h (f + 1) (.list a) =
          (match heapGet h a with
            | some (.listCell xs) =>
              (snapListWith (fun x => snapshot h f x) xs).map .listV
            | _ => none) from rfl,
        heapGet_set_ne h a0 a c hne]
      cases hget : heapGet h a with
      | none => rfl
      | some cc =>
        cases cc with
        | listCell xs =>
          rw [hget] at hrest
          have : snapListWith (fun x => snapshot (setCell h a0 c) f x) xs =
              snapListWith (fun x => snapshot h f x) xs := by
            refine snapListWith_congr _ _ xs (fun x hx => ih x ?_)
            intro hmem
            exact hrest (by
              simp only [List.mem_flatten, List.mem_map]
              exact ⟨reachAddrs h f x, ⟨x, hx, rfl⟩, hmem⟩)
          simp [this]
        | mapCell es => rfl
        | shareCell w => rfl
    | map a =>
      simp only [reachAddrs, List.mem_cons, not_or] at hv
      obtain ⟨hne, hrest⟩ := hv
      rw [show snapshot (setCell h a0 c) (f + 1) (.map a) =
          (match heapGet (setCell h a0 c) a with
            | some (.mapCell es) =>
              (snapMapWith (fun x => snapshot (setCell h a0 c) f x) es).map .mapV
            | _ => none) from rfl,
        show snapshot h (f + 1) (.map a) =
          (match heapGet h a with
            | some (.mapCell es) =>
              (snapMapWith (fun x => snapshot h f x) es).map .mapV
            | _ => none) from rfl,
        heapGet_set_ne h a0 a c hne]
      cases hget : heapGet h a with
      | none => rfl
      | some cc =>
        cases cc with
        | listCell xs => rfl
        | mapCell es =>
          rw [hget] at hrest
          have : snapMapWith (fun x => snapshot (setCell h a0 c) f x) es =
              snapMapWith (fun x => snapshot h f x) es := by
            refine snapMapWith_congr _ _ es (fun e he => ih e.2 ?_)
            intro hmem
            exact hrest (by
              simp only [List.mem_flatten, List.mem_map]
              exact ⟨reachAddrs h f e.2, ⟨e, he, rfl⟩, hmem⟩)
          simp [this]
        | shareCell w => rfl
    | share a =>
      simp only [reachAddrs, List.mem_cons, not_or] at hv
      obtain ⟨hne, hrest⟩ := hv
      rw [show snapshot (setCell h a0 c) (f + 1) (.share a) =
          (match heapGet (setCell h a0 c) a with
            | some (.shareCell w) => (snapshot (setCell h a0 c) f w).map .shareV
            | _ => none) from rfl,
        show snapshot h (f + 1) (.share a) =
          (match heapGet h a with
            | some (.shareCell w) => (snapshot h f w).map .shareV
            | _ => none) from rfl,
        heapGet_set_ne h a0 a c hne]
      cases hget : heapGet h a with
      | none => rfl
      | some cc =>
        cases cc with
        | listCell xs => rfl
        | mapCell es => rfl
        | shareCell w =>
          rw [hget] at hrest
          simp [ih w hrest]

/-- Reading an address inside the left part of an extended heap. -/
theorem heapGet_append_left (h h2 : Heap) (i : Addr) (hi : i < h.length) :
    heapGet (h ++ h2) i = heapGet h i := by
  simp [heapGet, List.get?_eq_getElem?, List.getElem?_append_left hi]

/-- C2 (amended).  `copy_value` on a List or Map clones the aggregate into a
fresh allocation whose elements are the original element handles.  Mutating
the copy's own (fresh) cell is invisible through the original, and — when
the original's cell is not reachable from the copy, i.e. the aggregate does
not transitively contain itself — mutating the original's cell is invisible
through the copy.  (Deeper mutations go through nested allocations that
remain shared between both, and can be visible through both; see the
counterexample.) -/
theorem c2_copy_value_top_level_isolation (h : Heap) (a : Addr) (c' : Cell)
    (f : Nat) (hb : heapBounded h.length h = true) :
    (∀ xs, heapGet h a = some (.listCell xs) →
      copy_value h (.list a) = (.list h.length, h ++ [.listCell xs]) ∧
      snapshot (setCell (h ++ [.listCell xs]) h.length c') f (.list a) =
        snapshot (h ++ [.listCell xs]) f (.list a) ∧
      (a ∉ reachAddrs (h ++ [.listCell xs]) f (.list h.length) →
        snapshot (setCell (h ++ [.listCell xs]) a c') f (.list h.length) =
          snapshot (h ++ [.listCell xs]) f (.list h.length))) ∧
    (∀ es, heapGet h a = some (.mapCell es) →
      copy_value h (.map a) = (.map h.length, h ++ [.mapCell es]) ∧
      snapshot (setCell (h ++ [.mapCell es]) h.length c') f (.map a) =
        snapshot (h ++ [.mapCell es]) f (.map a) ∧
      (a ∉ reachAddrs (h ++ [.mapCell es]) f (.map h.length) →
        snapshot (setCell (h ++ [.mapCell es]) a c') f (.map h.length) =
          snapshot (h ++ [.mapCell es]) f (.map h.length))) := by
  have main : ∀ q : Cell, heapGet h a = some q →
      ∀ w : Value, valueAddrs w = [a] →
      snapshot (setCell (h ++ [q]) h.length c') f w = snapshot (h ++ [q]) f w := by
    intro q hget w hw
    have ha : a < h.length := by
      have := List.get?_eq_some.mp hget
      exact this.1
    have hwb : (valueAddrs w).all (fun b => b < h.length) = true := by
      simp [hw, ha]
    have h1 : snapshot (setCell (h ++ [q]) h.length c') f w = snapshot h f w := by
      refine snapshot_agree_below h.length h _ hb ?_ f w hwb
      intro i hi
      rw [heapGet_set_ne _ _ _ _ (Nat.ne_of_gt hi), heapGet_append_left h _ i hi]
    have h2 : snapshot (h ++ [q]) f w = snapshot h f w := by
      refine snapshot_agree_below h.length h _ hb ?_ f w hwb
      intro i hi
      exact heapGet_append_left h _ i hi
    exact h1.trans h2.symm
  constructor
  · intro xs hget
    refine ⟨by simp [copy_value, hget], main _ hget (.list a) rfl, ?_⟩
    intro hreach
    exact snapshot_set_unreachable (h ++ [.listCell xs]) a c' f _ hreach
  · intro es hget
    refine ⟨by simp [copy_value, hget], main _ hget (.map a) rfl, ?_⟩
    intro hreach
    exact snapshot_set_unreachable (h ++ [.mapCell es]) a c' f _ hreach

/-- C2 witness: the theorem applied to the one-element list `[1]` stored at
address 0; overwriting the copy's fresh cell (address 1) is invisible
through the original, and overwriting the original's cell is invisible
through the copy. -/
theorem c2_witness :
    snapshot (setCell [Cell.listCell [Value.number (F64.num 1)],
        Cell.listCell [Value.number (F64.num 1)]] 1 (Cell.listCell [])) 2
        (Value.list 0) =
      snapshot [Cell.listCell [Value.number (F64.num 1)],
        Cell.listCell [Value.number (F64.num 1)]] 2 (Value.list 0) ∧
    snapshot (setCell [Cell.listCell [Value.number (F64.num 1)],
        Cell.listCell [Value.number (F64.num 1)]] 0 (Cell.listCell [])) 2
        (Value.list 1) =
      snapshot [Cell.listCell [Value.number (F64.num 1)],
        Cell.listCell [Value.number (F64.num 1)]] 2 (Value.list 1) := by
  have base := (c2_copy_value_top_level_isolation
    [Cell.listCell [Value.number (F64.num 1)]] 0 (Cell.listCell []) 2
    (by decide)).1 [Value.number (F64.num 1)] rfl
  exact ⟨base.2.1, base.2.2 (by decide)⟩

/-- C2 counterexample: for the nested list `v = [[1]]` (inner list at
address 0, outer at address 1), `copy_value` produces a copy at address 2
sharing the inner list; mutating the inner list — reachable through the
copy, hence a mutation performed through the copy — changes what the
original reads back, refuting the claim at nesting depth two. -/
theorem c2_counterexample :
    copy_value [Cell.listCell [Value.number (F64.num 1)],
        Cell.listCell [Value.list 0]] (Value.list 1) =
      (Value.list 2,
        [Cell.listCell [Value.number (F64.num 1)], Cell.listCell [Value.list 0],
          Cell.listCell [Value.list 0]]) ∧
    (0 : Addr) ∈ reachAddrs [Cell.listCell [Value.number (F64.num 1)],
        Cell.listCell [Value.list 0], Cell.listCell [Value.list 0]] 3
        (Value.list 2) ∧
    pureOptEq
      (snapshot (setCell [Cell.listCell [Value.number (F64.num 1)],
          Cell.listCell [Value.list 0], Cell.listCell [Value.list 0]] 0
          (Cell.listCell [Value.number (F64.num 99)])) 5 (Value.list 1))
      (snapshot [Cell.listCell [Value.number (F64.num 1)],
          Cell.listCell [Value.list 0], Cell.listCell [Value.list 0]] 5
          (Value.list 1)) = false := by
  refine ⟨rfl, by decide, by decide⟩

/-- C7 (confirmed).  In the total-order comparison of Number values, NaN
compares greater than every non-NaN number (and every non-NaN number less
than NaN), and NaN compares equal to NaN. -/
theorem c7_nan_total_order (q : ℚ) :
    valueCmp (Value.number F64.nan) (Value.number (F64.num q)) =
        OrdResult.ok Ordering.gt ∧
      valueCmp (Value.number (F64.num q)) (Value.number F64.nan) =
        OrdResult.ok Ordering.lt ∧
      valueCmp (Value.number F64.nan) (Value.number F64.nan) =
        OrdResult.ok Ordering.eq :=
  ⟨rfl, rfl, rfl⟩

end Runtime

namespace Parser

/-- Adding a literal the dedup maps already know returns the stored index
and leaves the builder untouched. -/
theorem addLiteral_dup (b : ConstantPoolBuilder) (l : Literal) (i : Nat)
    (hsome : builderLookup b l = some i) : addLiteral b l = (.ok i, b) := by
  cases l with
  | str s =>
    simp only [builderLookup] at hsome
    simp [addLiteral, ConstantPoolBuilder.add_string, hsome]
  | f64 bits =>
    simp only [builderLookup] at hsome
    simp [addLiteral, ConstantPoolBuilder.add_f64, hsome]
  | i64 n =>
    simp only [builderLookup] at hsome
    simp [addLiteral, ConstantPoolBuilder.add_i64, hsome]

/-- Adding an unknown literal to a full builder fails and leaves the builder
untouched. -/
theorem addLiteral_overflow (b : ConstantPoolBuilder) (l : Literal)
    (hnone : builderLookup b l = none)
    (hge : ¬ b.constants.length < constantIndexLimit) :
    addLiteral b l = (.error (), b) := by
  cases l with
  | str s =>
    simp only [builderLookup] at hnone
    simp [addLiteral, ConstantPoolBuilder.add_string, hnone, hge]
  | f64 bits =>
    simp only [builderLookup] at hnone
    simp [addLiteral, ConstantPoolBuilder.add_f64, hnone, hge]
  | i64 n =>
    simp only [builderLookup] at hnone
    simp [addLiteral, ConstantPoolBuilder.add_i64, hnone, hge]

/-- Adding an unknown literal to a non-full builder claims the next index,
appends one entry, hashes the literal, and extends exactly the matching
dedup map. -/
theorem addLiteral_new (b : ConstantPoolBuilder) (l : Literal)
    (hnone : builderLookup b l = none)
    (hlt : b.constants.length < constantIndexLimit) :
    (addLiteral b l).1 = .ok b.constants.length ∧
    (addLiteral b l).2.constants.length = b.constants.length + 1 ∧
    (addLiteral b l).2.hasher = b.hasher ++ [l.hashItem] ∧
    (∀ l2, builderLookup (addLiteral b l).2 l2 =
      if l2 = l then some b.constants.length else builderLookup b l2) := by
  cases l with
  | str s =>
    simp only [builderLookup] at hnone
    refine ⟨by simp [addLiteral, ConstantPoolBuilder.add_string, hnone, hlt],
      by simp [addLiteral, ConstantPoolBuilder.add_string, hnone, hlt],
      by simp [addLiteral, ConstantPoolBuilder.add_string, hnone, hlt,
        Literal.hashItem], ?_⟩
    intro l2
    cases l2 with
    | str s2 =>
      by_cases hs : s2 = s
      · subst hs
        simp [addLiteral, ConstantPoolBuilder.add_string, hnone, hlt,
          builderLookup, assocGet]
      · simp [addLiteral, ConstantPoolBuilder.add_string, hnone, hlt,
          builderLookup, assocGet, hs]
    | f64 bits2 =>
      simp [addLiteral, ConstantPoolBuilder.add_string, hnone, hlt, builderLookup]
    | i64 n2 =>
      simp [addLiteral, ConstantPoolBuilder.add_string, hnone, hlt, builderLookup]
  | f64 bits =>
    simp only [builderLookup] at hnone
    refine ⟨by simp [addLiteral, ConstantPoolBuilder.add_f64, hnone, hlt],
      by simp [addLiteral, ConstantPoolBuilder.add_f64, hnone, hlt],
      by simp [addLiteral, ConstantPoolBuilder.add_f64, hnone, hlt,
        Literal.hashItem], ?_⟩
    intro l2
    cases l2 with
    | str s2 =>
      simp [addLiteral, ConstantPoolBuilder.add_f64, hnone, hlt, builderLookup]
    | f64 bits2 =>
      by_cases hs : bits2 = bits
      · subst hs
        simp [addLiteral, ConstantPoolBuilder.add_f64, hnone, hlt,
          builderLookup, assocGet]
      · simp [addLiteral, ConstantPoolBuilder.add_f64, hnone, hlt,
          builderLookup, assocGet, hs]
    | i64 n2 =>
      simp [addLiteral, ConstantPoolBuilder.add_f64, hnone, hlt, builderLookup]
  | i64 n =>
    simp only [builderLookup] at hnone
    refine ⟨by simp [addLiteral, ConstantPoolBuilder.add_i64, hnone, hlt],
      by simp [addLiteral, ConstantPoolBuilder.add_i64, hnone, hlt],
      by simp [addLiteral, ConstantPoolBuilder.add_i64, hnone, hlt,
        Literal.hashItem], ?_⟩
    intro l2
    cases l2 with
    | str s2 =>
      simp [addLiteral, ConstantPoolBuilder.add_i64, hnone, hlt, builderLookup]
    | f64 bits2 =>
      simp [addLiteral, ConstantPoolBuilder.add_i64, hnone, hlt, builderLookup]
    | i64 n2 =>
      by_cases hs : n2 = n
      · subst hs
        simp [addLiteral, ConstantPoolBuilder.add_i64, hnone, hlt,
          builderLookup, assocGet]
      · simp [addLiteral, ConstantPoolBuilder.add_i64, hnone, hlt,
          builderLookup, assocGet, hs]

/-- Accumulating first occurrences never shrinks the accumulator. -/
theorem addFirstOcc_length_mono :
    ∀ (ls : List Literal) (occ : List Literal),
      occ.length ≤ (addFirstOcc occ ls).length := by
  intro ls
  induction ls with
  | nil => intro occ; simp [addFirstOcc]
  | cons l ls ih =>
    intro occ
    simp only [addFirstOcc]
    by_cases hmem : l ∈ occ
    · simpa [hmem] using ih occ
    · have h1 : occ.length ≤ (occ ++ [l]).length := by simp
      have h2 := ih (occ ++ [l])
      simp only [hmem, if_false]
      exact h1.trans h2

/-- The builder invariant along a sequence of additions: when the distinct
literals fit under the index bound, the entry count tracks the number of
first occurrences, the hasher transcript is exactly the first occurrences in
order, and the dedup maps know exactly the literals seen so far. -/
theorem addAll_inv :
    ∀ (ls : List Literal) (occ : List Literal) (b : ConstantPoolBuilder),
      b.constants.length = occ.length →
      b.hasher = occ.map Literal.hashItem →
      (∀ l, (builderLookup b l).isSome = true ↔ l ∈ occ) →
      (addFirstOcc occ ls).length ≤ constantIndexLimit →
      (addAll b ls).constants.length = (addFirstOcc occ ls).length ∧
      (addAll b ls).hasher = (addFirstOcc occ ls).map Literal.hashItem ∧
      (∀ l, (builderLookup (addAll b ls) l).isSome = true ↔
        l ∈ addFirstOcc occ ls) := by
  intro ls
  induction ls with
  | nil =>
    intro occ b hlen hhash hmem _
    exact ⟨hlen, hhash, hmem⟩
  | cons l ls ih =>
    intro occ b hlen hhash hmem hbound
    simp only [addAll, addFirstOcc]
    simp only [addFirstOcc] at hbound
    by_cases hl : l ∈ occ
    · have hsome : (builderLookup b l).isSome = true := (hmem l).mpr hl
      obtain ⟨i, hi⟩ := Option.isSome_iff_exists.mp hsome
      rw [addLiteral_dup b l i hi]
      simp only [hl, if_true] at hbound ⊢
      exact ih occ b hlen hhash hmem hbound
    · have hnone : builderLookup b l = none := by
        cases hcase : builderLookup b l with
        | none => rfl
        | some i =>
          exact absurd ((hmem l).mp (by simp [hcase])) hl
      have hlt : b.constants.length < constantIndexLimit := by
        have hmono := addFirstOcc_length_mono ls (occ ++ [l])
        simp only [hl, if_false] at hbound
        have : occ.length + 1 ≤ constantIndexLimit := by
          have hocc : (occ ++ [l]).length = occ.length + 1 := by simp
          omega
        omega
      obtain ⟨_, hlen2, hhash2, hlook2⟩ := addLiteral_new b l hnone hlt
      simp only [hl, if_false] at hbound ⊢
      refine ih (occ ++ [l]) (addLiteral b l).2 ?_ ?_ ?_ hbound
      · simp [hlen2, hlen]
      · simp [hhash2, hhash]
      · intro l2
        rw [hlook2 l2]
        by_cases hll : l2 = l
        · simp [hll]
        · simp only [hll, if_false, List.mem_append, List.mem_singleton]
          rw [hmem l2]
          simp [hll]

/-- C5 (confirmed).  Adding any literal twice returns the identical index
both times, and — when the distinct literals fit under the index bound —
the built pool's size equals the number of distinct literals added. -/
theorem c5_dedup_stable_index_and_size (b : ConstantPoolBuilder) (l : Literal)
    (i : Nat) (ls : List Literal)
    (hfirst : (addLiteral b l).1 = .ok i)
    (hfit : (firstOccurrences ls).length ≤ constantIndexLimit) :
    (addLiteral (addLiteral b l).2 l).1 = .ok i ∧
      ((addAll emptyBuilder ls).build).size = (firstOccurrences ls).length := by
  constructor
  · cases hcase : builderLookup b l with
    | some j =>
      have heq := addLiteral_dup b l j hcase
      rw [heq] at hfirst ⊢
      simpa [hfirst] using (by
        have : Except.ok (ε := Unit) j = Except.ok i := hfirst
        have hij : j = i := by injection this
        rw [← hij]
        exact (addLiteral_dup b l j hcase) ▸ rfl)
    | none =>
      by_cases hlt : b.constants.length < constantIndexLimit
      · obtain ⟨hres, _, _, hlook⟩ := addLiteral_new b l hcase hlt
        rw [hres] at hfirst
        have hib : i = b.constants.length := by
          injection hfirst.symm
        have hsecond : builderLookup (addLiteral b l).2 l =
            some b.constants.length := by
          rw [hlook l]; simp
        rw [addLiteral_dup _ l b.constants.length hsecond, hib]
      · rw [addLiteral_overflow b l hcase hlt] at hfirst
        cases hfirst
  · have hinv := addAll_inv ls [] emptyBuilder rfl rfl
      (by intro l2; cases l2 <;> simp [builderLookup, emptyBuilder, assocGet])
      hfit
    simpa [ConstantPool.size, ConstantPoolBuilder.build, firstOccurrences]
      using hinv.1

/-- C5 witness: the theorem applied to an integer literal added twice to the
fresh builder, and to a three-literal sequence with one duplicate. -/
theorem c5_witness :
    (addLiteral (addLiteral emptyBuilder (Literal.i64 7)).2 (Literal.i64 7)).1 =
        .ok 0 ∧
      ((addAll emptyBuilder
          [Literal.str "a", Literal.i64 1, Literal.str "a"]).build).size =
        (firstOccurrences [Literal.str "a", Literal.i64 1, Literal.str "a"]).length :=
  c5_dedup_stable_index_and_size emptyBuilder (Literal.i64 7) 0
    [Literal.str "a", Literal.i64 1, Literal.str "a"] rfl (by decide)

/-- A literal is recoverable from its hash item. -/
theorem Literal.hashItem_injective : Function.Injective Literal.hashItem := by
  intro a b hab
  cases a <;> cases b <;> simp_all [Literal.hashItem]

/-- C6 (amended).  Pool equality (which compares only the aggregate hash,
modelled collision-free) holds exactly when the two literal sequences have
the same distinct literals in the same first-occurrence order.  In
particular identical sequences give equal pools; sequences whose
first-occurrence sequences differ give unequal pools. -/
theorem c6_pool_equality_iff_first_occurrences (ls1 ls2 : List Literal)
    (h1 : (firstOccurrences ls1).length ≤ constantIndexLimit)
    (h2 : (firstOccurrences ls2).length ≤ constantIndexLimit) :
    (ConstantPool.beq ((addAll emptyBuilder ls1).build)
        ((addAll emptyBuilder ls2).build) = true ↔
      firstOccurrences ls1 = firstOccurrences ls2) := by
  have hinv1 := addAll_inv ls1 [] emptyBuilder rfl rfl
    (by intro l2; cases l2 <;> simp [builderLookup, emptyBuilder, assocGet]) h1
  have hinv2 := addAll_inv ls2 [] emptyBuilder rfl rfl
    (by intro l2; cases l2 <;> simp [builderLookup, emptyBuilder, assocGet]) h2
  simp only [ConstantPool.beq, ConstantPoolBuilder.build, firstOccurrences]
  rw [hinv1.2.1, hinv2.2.1, beq_iff_eq]
  constructor
  · intro hmap
    exact List.map_injective_iff.mpr Literal.hashItem_injective hmap
  · intro heq
    rw [heq]

/-- C6 witness: two four-literal sequences with equal first occurrences give
equal pools. -/
theorem c6_witness :
    ConstantPool.beq
        ((addAll emptyBuilder [Literal.i64 1, Literal.str "x", Literal.i64 1,
          Literal.f64 5]).build)
        ((addAll emptyBuilder [Literal.i64 1, Literal.str "x", Literal.f64 5,
          Literal.str "x"]).build) = true :=
  (c6_pool_equality_iff_first_occurrences
    [Literal.i64 1, Literal.str "x", Literal.i64 1, Literal.f64 5]
    [Literal.i64 1, Literal.str "x", Literal.f64 5, Literal.str "x"]
    (by decide) (by decide)).mpr (by decide)

/-- C6 counterexample: the sequences `[1, 1, 2]` and `[1, 2, 2]` differ in
exactly one position (the middle literal), yet the built pools compare
equal, because deduplication collapses both to the same distinct-literal
sequence and hence the same hasher transcript. -/
theorem c6_counterexample :
    ([Literal.i64 1, Literal.i64 1, Literal.i64 2].get? 0 =
      [Literal.i64 1, Literal.i64 2, Literal.i64 2].get? 0) ∧
    (([Literal.i64 1, Literal.i64 1, Literal.i64 2].get? 1 ==
      [Literal.i64 1, Literal.i64 2, Literal.i64 2].get? 1) = false) ∧
    ([Literal.i64 1, Literal.i64 1, Literal.i64 2].get? 2 =
      [Literal.i64 1, Literal.i64 2, Literal.i64 2].get? 2) ∧
    ConstantPool.beq
        ((addAll emptyBuilder [Literal.i64 1, Literal.i64 1, Literal.i64 2]).build)
        ((addAll emptyBuilder [Literal.i64 1, Literal.i64 2, Literal.i64 2]).build) =
      true := by
  refine ⟨rfl, by decide, rfl, by decide⟩

end Parser

namespace Driver

/-- Looking up the key just inserted finds the inserted value. -/
theorem mapGet_mapInsert_self (m : List (String × RValue)) (k : String)
    (v : RValue) : mapGet (mapInsert m k v) k = some v := by
  induction m with
  | nil => simp [mapInsert, mapGet]
  | cons e m ih =>
    obtain ⟨k1, v1⟩ := e
    by_cases hk : k = k1
    · simp [mapInsert, mapGet, hk]
    · simp [mapInsert, mapGet, hk, ih]

/-- Inserting one key leaves lookups of every other key unchanged. -/
theorem mapGet_mapInsert_ne (m : List (String × RValue)) (k : String)
    (v : RValue) (k2 : String) (hne : k2 ≠ k) :
    mapGet (mapInsert m k v) k2 = mapGet m k2 := by
  induction m with
  | nil => simp [mapInsert, mapGet, hne]
  | cons e m ih =>
    obtain ⟨k1, v1⟩ := e
    by_cases hk : k = k1
    · subst hk
      simp [mapInsert, mapGet, hne]
    · by_cases hk2 : k2 = k1
      · simp [mapInsert, mapGet, hk, hk2]
      · simp [mapInsert, mapGet, hk, hk2, ih]

/-- C4 (amended).  A failed compilation behaves by stage: a parse error
returns the formatted diagnostic and leaves the driver — including any
previously installed chunk — untouched; a compile (lowering) error clears
the chunk; and whenever the driver holds no chunk, `run` is a no-op
returning the empty value. -/
theorem c4_compile_failure_by_stage :
    (∀ (k : Koto) (s : String) (e : ParseError)
        (cf : Nat → Except String (List Nat × DebugInfo)),
      Koto.compile k s (.error e) cf =
        (.error (formatError e.message s e.spanStart e.spanEnd), k)) ∧
    (∀ (k : Koto) (s : String) (ast : Nat) (msg : String),
      Koto.compile k s (.ok ast) (fun _ => .error msg) =
        (.error ("Error while compiling script: " ++ msg),
          { k with chunk := none })) ∧
    (∀ (k : Koto) (vmRun : RunResult)
        (vmRunFunction : Nat → List RValue → RunResult),
      k.chunk = none → k.run vmRun vmRunFunction = .ok .empty) := by
  refine ⟨fun k s e cf => rfl, fun k s ast msg => rfl, ?_⟩
  intro k vmRun vmRunFunction hchunk
  simp [Koto.run, hchunk]

/-- C4 witness: the three parts of the theorem applied at concrete inputs —
a parse error on a fresh driver, a compile error on a fresh driver, and a
run on a chunkless driver. -/
theorem c4_witness :
    Koto.compile (Koto.new []) "x"
        (.error ⟨"unexpected token", ⟨1, 1⟩, ⟨1, 2⟩⟩)
        (fun _ => .ok ([], ⟨none, []⟩)) =
      (.error (formatError "unexpected token" "x" ⟨1, 1⟩ ⟨1, 2⟩), Koto.new []) ∧
    Koto.compile (Koto.new []) "x" (.ok 0) (fun _ => .error "too many constants") =
      (.error ("Error while compiling script: " ++ "too many constants"),
        { Koto.new [] with chunk := none }) ∧
    (Koto.new []).run (.ok (RValue.number (F64.num 3)))
        (fun _ _ => .ok RValue.empty) = .ok RValue.empty :=
  ⟨c4_compile_failure_by_stage.1 (Koto.new []) "x"
      ⟨"unexpected token", ⟨1, 1⟩, ⟨1, 2⟩⟩ (fun _ => .ok ([], ⟨none, []⟩)),
    c4_compile_failure_by_stage.2.1 (Koto.new []) "x" 0 "too many constants",
    c4_compile_failure_by_stage.2.2 (Koto.new [])
      (.ok (RValue.number (F64.num 3))) (fun _ _ => .ok RValue.empty) rfl⟩

/-- C4 counterexample: a driver holding a chunk from an earlier successful
compile, hit by a parse error, still holds that chunk, and a subsequent
`run` is not a no-op returning the empty value — it executes the stale
chunk (here returning `Bool(true)`). -/
theorem c4_counterexample :
    ((Koto.compile
        { script := "old", scriptPath := none, globals := [],
          options := defaultKotoOptions,
          chunk := some ⟨[1], ⟨none, []⟩⟩ }
        "new" (.error ⟨"unexpected token", ⟨1, 1⟩, ⟨1, 2⟩⟩)
        (fun _ => .ok ([], ⟨none, []⟩))).2).chunk = some ⟨[1], ⟨none, []⟩⟩ ∧
    ((Koto.compile
        { script := "old", scriptPath := none, globals := [],
          options := defaultKotoOptions,
          chunk := some ⟨[1], ⟨none, []⟩⟩ }
        "new" (.error ⟨"unexpected token", ⟨1, 1⟩, ⟨1, 2⟩⟩)
        (fun _ => .ok ([], ⟨none, []⟩))).2).run (.ok (RValue.bool true))
      (fun _ _ => .ok RValue.empty) = .ok (RValue.bool true) ∧
    RValue.isEmptyValue (RValue.bool true) = false :=
  ⟨rfl, rfl, rfl⟩

/-- C8 (amended).  `call_function_by_name` fails with the "function not
found" error exactly when the global binding is absent or not a script
`Function` value (a host `BuiltinFunction` binding, though callable, also
takes this path); when the binding is a script `Function`, that function is
invoked with the given arguments through `call_function`. -/
theorem c8_call_function_by_name_dispatch (k : Koto)
    (vmRunFunction : Nat → List RValue → RunResult)
    (name : String) (args : List RValue) :
    ((∀ f, mapGet k.globals name ≠ some (.function f)) →
      k.call_function_by_name vmRunFunction name args =
        .error ("Runtime error: function " ++ sq ++ name ++ sq ++
          " not found")) ∧
    (∀ f, mapGet k.globals name = some (.function f) →
      k.call_function_by_name vmRunFunction name args =
        k.call_function vmRunFunction f args) := by
  constructor
  · intro hnot
    cases hcase : mapGet k.globals name with
    | none => simp [Koto.call_function_by_name, Koto.get_global_function, hcase]
    | some v =>
      cases v with
      | function f => exact absurd hcase (hnot f)
      | empty => simp [Koto.call_function_by_name, Koto.get_global_function, hcase]
      | bool b => simp [Koto.call_function_by_name, Koto.get_global_function, hcase]
      | number n => simp [Koto.call_function_by_name, Koto.get_global_function, hcase]
      | str s => simp [Koto.call_function_by_name, Koto.get_global_function, hcase]
      | list es => simp [Koto.call_function_by_name, Koto.get_global_function, hcase]
      | map es => simp [Koto.call_function_by_name, Koto.get_global_function, hcase]
      | builtinFunction f =>
        simp [Koto.call_function_by_name, Koto.get_global_function, hcase]
  · intro f hsome
    simp [Koto.call_function_by_name, Koto.get_global_function, hsome]

/-- C8 witness: the theorem applied to a driver whose only globals are a
script function `g` and no binding `h`; calling `g` runs it, calling `h`
reports it not found. -/
theorem c8_witness :
    Koto.call_function_by_name
        { script := "", scriptPath := none,
          globals := [("g", RValue.function 3)],
          options := defaultKotoOptions, chunk := none }
        (fun _ _ => .ok (RValue.number (F64.num 9))) "g" [] =
      .ok (RValue.number (F64.num 9)) ∧
    Koto.call_function_by_name
        { script := "", scriptPath := none,
          globals := [("g", RValue.function 3)],
          options := defaultKotoOptions, chunk := none }
        (fun _ _ => .ok (RValue.number (F64.num 9))) "h" [] =
      .error ("Runtime error: function " ++ sq ++ "h" ++ sq ++ " not found") := by
  constructor
  · exact ((c8_call_function_by_name_dispatch
      { script := "", scriptPath := none,
        globals := [("g", RValue.function 3)],
        options := defaultKotoOptions, chunk := none }
      (fun _ _ => .ok (RValue.number (F64.num 9))) "g" []).2 3 rfl).trans rfl
  · exact (c8_call_function_by_name_dispatch
      { script := "", scriptPath := none,
        globals := [("g", RValue.function 3)],
        options := defaultKotoOptions, chunk := none }
      (fun _ _ => .ok (RValue.number (F64.num 9))) "h" []).1
      (by intro f h; simp [mapGet] at h)

/-- C8 counterexample: a global bound to a host `BuiltinFunction` is a
callable value, yet `call_function_by_name` reports "function not found",
because `get_global_function` only matches script `Function` values. -/
theorem c8_counterexample :
    mapGet [("f", RValue.builtinFunction 0)] "f" =
      some (RValue.builtinFunction 0) ∧
    RValue.isCallable (RValue.builtinFunction 0) = true ∧
    Koto.call_function_by_name
        { script := "", scriptPath := none,
          globals := [("f", RValue.builtinFunction 0)],
          options := defaultKotoOptions, chunk := none }
        (fun _ _ => .ok RValue.empty) "f" [] =
      .error ("Runtime error: function " ++ sq ++ "f" ++ sq ++ " not found") :=
  ⟨rfl, rfl, rfl⟩

/-- C10 (confirmed).  `set_args` replaces only the `args` entry of the
global `env` map with the given strings in order; `script_dir`,
`script_path` and every other entry of `env`, and every other global
binding, are unchanged. -/
theorem c10_set_args_frame (k : Koto) (args : List String)
    (env : List (String × RValue))
    (henv : mapGet k.globals "env" = some (.map env)) :
    ∃ k2, k.set_args args = some k2 ∧
      mapGet k2.globals "env" =
        some (.map (mapInsert env "args" (.list (args.map RValue.str)))) ∧
      (∀ g, g ≠ "env" → mapGet k2.globals g = mapGet k.globals g) ∧
      mapGet (mapInsert env "args" (.list (args.map RValue.str))) "args" =
        some (.list (args.map RValue.str)) ∧
      (∀ key, key ≠ "args" →
        mapGet (mapInsert env "args" (.list (args.map RValue.str))) key =
          mapGet env key) := by
  have hk2 : k.set_args args = some { k with globals := mapInsert k.globals "env" (.map (mapInsert env "args" (.list (args.map RValue.str)))) } := by
    simp [Koto.set_args, henv]
  refine ⟨_, hk2, ?_, ?_, ?_, ?_⟩
  · exact mapGet_mapInsert_self k.globals "env" _
  · intro g hg
    exact mapGet_mapInsert_ne k.globals "env" _ g hg
  · exact mapGet_mapInsert_self env "args" _
  · intro key hkey
    exact mapGet_mapInsert_ne env "args" _ key hkey

/-- C10 witness: the theorem applied to a freshly constructed driver and the
arguments `["a", "b"]`. -/
theorem c10_witness :
    ∃ k2, (Koto.new []).set_args ["a", "b"] = some k2 ∧
      mapGet k2.globals "env" =
        some (.map (mapInsert
          [("script_dir", RValue.empty), ("script_path", RValue.empty),
            ("args", RValue.list [])]
          "args" (.list (["a", "b"].map RValue.str)))) ∧
      (∀ g, g ≠ "env" → mapGet k2.globals g = mapGet (Koto.new []).globals g) ∧
      mapGet (mapInsert
          [("script_dir", RValue.empty), ("script_path", RValue.empty),
            ("args", RValue.list [])]
          "args" (.list (["a", "b"].map RValue.str))) "args" =
        some (.list (["a", "b"].map RValue.str)) ∧
      (∀ key, key ≠ "args" →
        mapGet (mapInsert
            [("script_dir", RValue.empty), ("script_path", RValue.empty),
              ("args", RValue.list [])]
            "args" (.list (["a", "b"].map RValue.str))) key =
          mapGet [("script_dir", RValue.empty), ("script_path", RValue.empty),
            ("args", RValue.list [])] key) :=
  c10_set_args_frame (Koto.new []) ["a", "b"]
    [("script_dir", RValue.empty), ("script_path", RValue.empty),
      ("args", RValue.list [])] rfl

/-- C9 (confirmed).  A diagnostic for a single-line span renders the message
and locator, the padding line, the source line behind its right-aligned line
number, and then a caret line made of the padding, a bar, exactly
`start.column` spaces and exactly `end.column - start.column` carets. -/
theorem c9_format_error_single_line (message script : String) (p q : Position)
    (ln : String) (hline : p.line = q.line) (hp : 1 ≤ p.line)
    (hget : (rustLines script).get? (p.line - 1) = some ln) :
    formatError message script p q =
      message ++ "\n --> " ++ toString p.line ++ ":" ++ toString p.column ++
        "\n" ++ spaces ((toString p.line).length + 2) ++ "|\n" ++
        (" " ++ toString p.line ++ " | " ++ ln ++ "\n" ++
          spaces ((toString p.line).length + 2) ++ "|" ++ spaces p.column ++
          caretRun (q.column - p.column)) := by
  have hdrop : (rustLines script).drop (p.line - 1) =
      ln :: (rustLines script).drop (p.line - 1 + 1) := by
    obtain ⟨hlt, hg⟩ := List.get?_eq_some.mp hget
    rw [List.drop_eq_getElem_cons hlt]
    congr 1
  have htake : ((rustLines script).drop (p.line - 1)).take
      (q.line - p.line + 1) = [ln] := by
    rw [← hline, hdrop]
    simp
  have hrange : rangeInclusive p.line q.line = [p.line] := by
    rw [← hline]
    simp [rangeInclusive, List.range'_one]
  have hwidth : maxLen [toString p.line] = (toString p.line).length := by
    simp [maxLen]
  have halign : rightAlign (toString p.line) ((toString p.line).length) =
      toString p.line := by
    simp [rightAlign, Nat.sub_self, spaces]
  simp only [formatError, htake, hrange, List.map_cons, List.map_nil, hwidth,
    List.length_cons, List.length_nil, Nat.reduceAdd, beq_self_eq_true,
    if_true, List.head?_cons, Option.getD_some, halign]

/-- C9 witness: the theorem applied to the message "error" over the
single-line script "abcdef" with span columns 3–6 of line 1: three leading
spaces and three carets under the bar. -/
theorem c9_witness :
    formatError "error" "abcdef" ⟨1, 3⟩ ⟨1, 6⟩ =
      "error\n --> 1:3\n   |\n 1 | abcdef\n   |   ^^^" :=
  (c9_format_error_single_line "error" "abcdef" ⟨1, 3⟩ ⟨1, 6⟩ "abcdef"
    rfl (by decide) (by decide)).trans (by decide)

end Driver

end KotoSpec
